import Mathlib

/-!
# Verification of the schema-resolution fan-out layer (worker/schema.go)

Shallow embedding of `worker/schema.go` from the dgraph repository.

External collaborators are modelled as records of functions:
* `Groups` is the Topology Oracle (`groups()` in the source):
  `ServesGroup`, `ServesTablet`, `BelongsTo`, `KnownGroups`.
* `SchemaState` is the Schema Catalog (`schema.State()` in the source):
  `Predicates`, `TypeOf`, `IsIndexed`, `TokenizerNames`, `IsReversed`,
  `HasCount`, `IsList`, `HasUpsert`, `HasLang`.

Concurrency is made explicit:
* the Go `range` over `schemaMap` in `GetSchemaOverNetwork` has unspecified
  order, so the dispatch loop takes the enumeration of the map's entries as
  a parameter (constrained to be a permutation of the computed map in the
  theorems);
* the `select` in the aggregation loop is driven by a list of `AggEvent`s,
  each being either a `resultErr` received from the results channel or the
  caller's context becoming done.
-/

set_option autoImplicit false

namespace DgraphSchema

/-- Errors of the Go code, as an explicit datatype.  `remote` stands for any
error string coming back from a forwarded call. -/
inductive GoError where
  | healthErr
  | unservedTablet
  | noConnection
  | ctxCanceled
  | ctxDeadlineExceeded
  | wrongGroup (gid : Nat)
  | remote (msg : String)
deriving Repr, DecidableEq

/-- `errUnservedTablet` of package worker. -/
def errUnservedTablet : GoError := GoError.unservedTablet

/-- `pb.SchemaRequest`: group id (0 means unrouted), predicate names, and the
field names to project. -/
structure SchemaRequest where
  groupId : Nat := 0
  predicates : List String := []
  fields : List String := []
deriving Repr, DecidableEq

/-- `api.SchemaNode`: the per-predicate projection.  Zero values as in Go. -/
structure SchemaNode where
  predicate : String := ""
  type : String := ""
  index : Bool := false
  tokenizer : List String := []
  reverse : Bool := false
  count : Bool := false
  list : Bool := false
  upsert : Bool := false
  lang : Bool := false
deriving Repr, DecidableEq

/-- `pb.SchemaResult`: a list of schema nodes. -/
structure SchemaResult where
  schema : List SchemaNode := []
deriving Repr, DecidableEq

/-- `emptySchemaResult` of package worker. -/
def emptySchemaResult : SchemaResult := {}

/-- `resultErr`: what each lookup task writes into the results channel.  In Go
`result` is a pointer that is nil when `err` is set; the aggregation loop never
reads `result` when `err` is non-nil, so a default value models the nil. -/
structure ResultErr where
  result : SchemaResult := {}
  err : Option GoError := none
deriving Repr, DecidableEq

/-- The Topology Oracle: the part of `groups()` used by schema.go. -/
structure Groups where
  servesGroup : Nat → Bool
  servesTablet : String → Bool
  belongsTo : String → Nat
  knownGroups : List Nat

/-- The Schema Catalog: the part of `schema.State()` used by schema.go.
`typeOf` returns `none` where Go's `TypeOf` returns a non-nil error
("schema is not defined"), and otherwise the type's name (`typ.Name()`). -/
structure SchemaState where
  predicates : List String
  typeOf : String → Option String
  isIndexed : String → Bool
  tokenizerNames : String → List String
  isReversed : String → Bool
  hasCount : String → Bool
  isList : String → Bool
  hasUpsert : String → Bool
  hasLang : String → Bool

/-- The body of the `switch field` statement inside `populateSchema`: one step
of the loop over `fields`, updating the node under construction. -/
def applyField (st : SchemaState) (attr : String) (typ : String)
    (node : SchemaNode) (field : String) : SchemaNode :=
  if field = "type" then { node with type := typ }
  else if field = "index" then { node with index := st.isIndexed attr }
  else if field = "tokenizer" then
    if st.isIndexed attr then { node with tokenizer := st.tokenizerNames attr }
    else node
  else if field = "reverse" then { node with reverse := st.isReversed attr }
  else if field = "count" then { node with count := st.hasCount attr }
  else if field = "list" then { node with list := st.isList attr }
  else if field = "upsert" then { node with upsert := st.hasUpsert attr }
  else if field = "lang" then { node with lang := st.hasLang attr }
  else node

/-- `populateSchema`: returns the information of asked fields for the given
attribute; `none` when the schema of `attr` is not defined. -/
def populateSchema (st : SchemaState) (attr : String) (fields : List String) :
    Option SchemaNode :=
  match st.typeOf attr with
  | none => none
  | some typ => some (fields.foldl (applyField st attr typ) { predicate := attr })

/-- The default field list substituted by `getSchema` when `s.Fields` is
empty. -/
def defaultFields : List String :=
  ["type", "index", "tokenizer", "reverse", "count", "list", "upsert", "lang"]

/-- `getSchema`: iterates over all predicates and populates the asked fields;
if the list of predicates is not specified then all the predicates of the
catalog are taken.  Mirrors the Go pair return `(*pb.SchemaResult, error)`;
the error component is always `none` (`return &result, nil`). -/
def getSchema (st : SchemaState) (gr : Groups) (s : SchemaRequest) :
    SchemaResult × Option GoError :=
  let predicates := if 0 < s.predicates.length then s.predicates else st.predicates
  let fields := if 0 < s.fields.length then s.fields else defaultFields
  let nodes := (predicates.filter (fun attr => gr.servesTablet attr)).filterMap
    (fun attr => populateSchema st attr fields)
  ({ schema := nodes }, none)

/-- The `map[uint32]*pb.SchemaRequest` of `GetSchemaOverNetwork`, modelled as
an association list with unique keys (insertion order). -/
abbrev SchemaMap := List (Nat × SchemaRequest)

/-- Go map read `schemaMap[gid]` (nil pointer becomes `none`). -/
def mapGet : SchemaMap → Nat → Option SchemaRequest
  | [], _ => none
  | (k, v) :: rest, gid => if k = gid then some v else mapGet rest gid

/-- Go map write `schemaMap[gid] = s`: update in place, or append a new
entry. -/
def mapSet : SchemaMap → Nat → SchemaRequest → SchemaMap
  | [], gid, s => [(gid, s)]
  | (k, v) :: rest, gid, s =>
    if k = gid then (gid, s) :: rest else (k, v) :: mapSet rest gid s

/-- One iteration of the first loop of `addToSchemaMap` (over
`schema.Predicates`): look up the owning group's sub-request, create it if
absent (with the original field set), and append `attr` to its predicates.
`gid` is `groups().BelongsTo(attr)`. -/
def addPredicate (m : SchemaMap) (fields : List String) (gid : Nat)
    (attr : String) : SchemaMap :=
  match mapGet m gid with
  | none => mapSet m gid { groupId := gid, predicates := [attr], fields := fields }
  | some s => mapSet m gid { s with predicates := s.predicates ++ [attr] }

/-- One iteration of the second loop of `addToSchemaMap` (over
`groups().KnownGroups()`): skip group 0, otherwise ensure an entry exists. -/
def addKnownGroup (m : SchemaMap) (fields : List String) (gid : Nat) : SchemaMap :=
  if gid = 0 then m
  else
    match mapGet m gid with
    | none => mapSet m gid { groupId := gid, predicates := [], fields := fields }
    | some _ => m

/-- `addToSchemaMap`: groups the predicates by group id; if the list of
predicates is empty it adds all known groups. -/
def addToSchemaMap (m : SchemaMap) (gr : Groups) (schema : SchemaRequest) :
    SchemaMap :=
  let m1 := schema.predicates.foldl
    (fun acc attr => addPredicate acc schema.fields (gr.belongsTo attr) attr) m
  if 0 < schema.predicates.length then m1
  else gr.knownGroups.foldl (fun acc gid => addKnownGroup acc schema.fields gid) m1

/-- The dispatch loop of `GetSchemaOverNetwork`
(`for gid, s := range schemaMap`), run over one concrete enumeration of the
map's entries (Go leaves the `range` order over a map unspecified).  Returns
the sub-requests for which a goroutine was started, and whether the loop
returned early with `errUnservedTablet` on seeing group id 0. -/
def dispatchPhase : List (Nat × SchemaRequest) →
    List (Nat × SchemaRequest) × Bool
  | [] => ([], false)
  | (gid, s) :: rest =>
    if gid = 0 then ([], true)
    else
      let r := dispatchPhase rest
      ((gid, s) :: r.1, r.2)

/-- One outcome of the `select` in the aggregation loop: either a `resultErr`
arrives on the results channel, or the caller's context is done (carrying
`ctx.Err()`). -/
inductive AggEvent where
  | res (r : ResultErr)
  | ctxDone (e : GoError)
deriving Repr, DecidableEq

/-- The aggregation loop of `GetSchemaOverNetwork`: `n` iterations, each
consuming the next `select` outcome.  Returns `none` when the events run out
(the Go loop would block forever); otherwise the schema-node list and error
as returned by the Go function (`return nil, r.err` / `return nil, ctx.Err()`
/ fall through to `return schemaNodes, nil`). -/
def aggregate : Nat → List AggEvent → List SchemaNode →
    Option (List SchemaNode × Option GoError)
  | 0, _, acc => some (acc, none)
  | _ + 1, [], _ => none
  | n + 1, AggEvent.res r :: rest, acc =>
    match r.err with
    | some e => some ([], some e)
    | none => aggregate n rest (acc ++ r.result.schema)
  | _ + 1, AggEvent.ctxDone e :: _, _ => some ([], some e)

/-- The observable outcome of one `GetSchemaOverNetwork` call: which
sub-requests got a lookup goroutine, and the returned pair. -/
structure NetOutcome where
  dispatched : List (Nat × SchemaRequest)
  nodes : List SchemaNode
  err : Option GoError
deriving Repr, DecidableEq

/-- `GetSchemaOverNetwork`, with its environment made explicit:
`health` is the result of `x.HealthCheck()`, `entries` is the enumeration
order of `schemaMap` chosen by the Go runtime (a permutation of the computed
map), and `events` drives the aggregation loop's `select`.  `none` means the
call blocks forever (events exhausted). -/
def GetSchemaOverNetwork (health : Option GoError)
    (entries : List (Nat × SchemaRequest)) (events : List AggEvent) :
    Option NetOutcome :=
  match health with
  | some e => some ⟨[], [], some e⟩
  | none =>
    let d := dispatchPhase entries
    if d.2 then some ⟨d.1, [], some errUnservedTablet⟩
    else
      match aggregate entries.length events [] with
      | none => none
      | some (nodes, err) => some ⟨d.1, nodes, err⟩

/-- `grpcWorker.Schema`, the Remote Entry Point: `ctxErr` is the value of
`ctx.Err()` on entry. -/
def grpcWorker.Schema (ctxErr : Option GoError) (st : SchemaState)
    (gr : Groups) (s : SchemaRequest) : SchemaResult × Option GoError :=
  match ctxErr with
  | some e => (emptySchemaResult, some e)
  | none =>
    if gr.servesGroup s.groupId then getSchema st gr s
    else (emptySchemaResult, some (GoError.wrongGroup s.groupId))

/-! ## Concrete instances for evaluating the definitions -/

/-- A concrete topology: predicate "b" belongs to group 0 (unrouted), every
other predicate to group 1; known groups are 0, 1, 2; only group 1 is served
locally. -/
def exGroups : Groups where
  servesGroup := fun g => g == 1
  servesTablet := fun _ => true
  belongsTo := fun a => if a = "b" then 0 else 1
  knownGroups := [0, 1, 2]

/-- A concrete catalog: "p" is defined and indexed, "r" is defined and not
indexed, "q" is not defined. -/
def exState : SchemaState where
  predicates := ["p", "q", "r"]
  typeOf := fun a => if a = "q" then none else some "string"
  isIndexed := fun a => a == "p"
  tokenizerNames := fun _ => ["term"]
  isReversed := fun _ => false
  hasCount := fun _ => false
  isList := fun _ => false
  hasUpsert := fun _ => false
  hasLang := fun _ => true

/-- A concrete request naming predicates of groups 1 and 0. -/
def exReq : SchemaRequest := { predicates := ["a", "b"], fields := [] }

/-! ## Basic association-list lemmas -/

theorem mapGet_mapSet (m : SchemaMap) (gid : Nat) (s : SchemaRequest) (g : Nat) :
    mapGet (mapSet m gid s) g = if gid = g then some s else mapGet m g := by
  induction m with
  | nil => simp [mapGet, mapSet]
  | cons kv rest ih =>
    obtain ⟨k, v⟩ := kv
    by_cases hk : k = gid
    · subst hk
      by_cases hg : k = g
      · subst hg
        simp [mapSet, mapGet]
      · simp [mapSet, mapGet, hg]
    · by_cases hg : k = g
      · subst hg
        have hgg : ¬ gid = k := fun h => hk h.symm
        simp [mapSet, mapGet, hk, hgg]
      · simp [mapSet, mapGet, hk, hg, ih]

theorem mapGet_none_iff (m : SchemaMap) (g : Nat) :
    mapGet m g = none ↔ g ∉ m.map Prod.fst := by
  induction m with
  | nil => simp [mapGet]
  | cons kv rest ih =>
    obtain ⟨k, v⟩ := kv
    by_cases hg : k = g
    · subst hg
      simp [mapGet]
    · have hg' : ¬ g = k := fun h => hg h.symm
      simp [mapGet, hg, hg', ih]

theorem mapSet_of_absent (m : SchemaMap) (gid : Nat) (s : SchemaRequest)
    (h : mapGet m gid = none) : mapSet m gid s = m ++ [(gid, s)] := by
  induction m with
  | nil => simp [mapSet]
  | cons kv rest ih =>
    obtain ⟨k, v⟩ := kv
    simp only [mapGet] at h
    by_cases hk : k = gid
    · simp [hk] at h
    · simp only [mapSet, if_neg hk, List.cons_append, List.cons.injEq, true_and]
      exact ih (by simpa [hk] using h)

theorem keys_mapSet_of_present (m : SchemaMap) (gid : Nat) (s v : SchemaRequest)
    (h : mapGet m gid = some v) :
    (mapSet m gid s).map Prod.fst = m.map Prod.fst := by
  induction m with
  | nil => simp [mapGet] at h
  | cons kv rest ih =>
    obtain ⟨k, w⟩ := kv
    simp only [mapGet] at h
    by_cases hk : k = gid
    · subst hk
      simp [mapSet]
    · simp only [mapSet, if_neg hk, List.map_cons]
      rw [ih (by simpa [hk] using h)]

/-! ## The predicates stored under one group -/

/-- The predicate list of the sub-request stored under `g` (empty when there
is no entry). -/
def predsOf (m : SchemaMap) (g : Nat) : List String :=
  match mapGet m g with
  | none => []
  | some s => s.predicates

theorem predsOf_addPredicate (m : SchemaMap) (f : List String) (gid : Nat)
    (a : String) (g : Nat) :
    predsOf (addPredicate m f gid a) g =
      if gid = g then predsOf m g ++ [a] else predsOf m g := by
  unfold addPredicate predsOf
  cases hm : mapGet m gid with
  | none =>
    rw [mapGet_mapSet]
    by_cases hg : gid = g
    · subst hg
      simp [hm]
    · simp [hg]
  | some s =>
    rw [mapGet_mapSet]
    by_cases hg : gid = g
    · subst hg
      simp [hm]
    · simp [hg]

/-- Entries are only ever created with the key as `groupId` and the original
field set; `addPredicate` preserves this shape. -/
def wellFormed (m : SchemaMap) (f : List String) : Prop :=
  ∀ g s, mapGet m g = some s → s.fields = f ∧ s.groupId = g

theorem wellFormed_addPredicate {m : SchemaMap} {f : List String}
    (gid : Nat) (a : String) (h : wellFormed m f) :
    wellFormed (addPredicate m f gid a) f := by
  intro g s hs
  unfold addPredicate at hs
  cases hm : mapGet m gid with
  | none =>
    rw [hm, mapGet_mapSet] at hs
    by_cases hg : gid = g
    · subst hg
      simp at hs
      subst hs
      exact ⟨rfl, rfl⟩
    · rw [if_neg hg] at hs
      exact h g s hs
  | some t =>
    rw [hm, mapGet_mapSet] at hs
    by_cases hg : gid = g
    · subst hg
      simp at hs
      subst hs
      obtain ⟨hf, hg⟩ := h _ _ hm
      exact ⟨hf, hg⟩
    · rw [if_neg hg] at hs
      exact h g s hs

theorem wellFormed_foldl_addPredicate (gr : Groups) (f : List String)
    (preds : List String) (m : SchemaMap) (h : wellFormed m f) :
    wellFormed (preds.foldl
      (fun acc attr => addPredicate acc f (gr.belongsTo attr) attr) m) f := by
  induction preds generalizing m with
  | nil => exact h
  | cons p ps ih =>
    exact ih _ (wellFormed_addPredicate _ _ h)

theorem mem_predsOf_foldl (gr : Groups) (f : List String)
    (preds : List String) (m : SchemaMap) (a : String) (g : Nat) :
    a ∈ predsOf (preds.foldl
        (fun acc attr => addPredicate acc f (gr.belongsTo attr) attr) m) g ↔
      a ∈ predsOf m g ∨ (a ∈ preds ∧ g = gr.belongsTo a) := by
  induction preds generalizing m with
  | nil => simp
  | cons p ps ih =>
    rw [List.foldl_cons, ih]
    rw [predsOf_addPredicate]
    by_cases hg : gr.belongsTo p = g
    · rw [if_pos hg]
      constructor
      · rintro (h | h)
        · rw [List.mem_append] at h
          rcases h with h | h
          · exact Or.inl h
          · simp at h
            subst h
            exact Or.inr ⟨List.mem_cons_self _ _, hg.symm⟩
        · exact Or.inr ⟨List.mem_cons_of_mem _ h.1, h.2⟩
      · rintro (h | ⟨hmem, hbt⟩)
        · exact Or.inl (List.mem_append_left _ h)
        · rcases List.mem_cons.mp hmem with h | h
          · subst h
            exact Or.inl (List.mem_append_right _ (by simp))
          · exact Or.inr ⟨h, hbt⟩
    · rw [if_neg hg]
      constructor
      · rintro (h | h)
        · exact Or.inl h
        · exact Or.inr ⟨List.mem_cons_of_mem _ h.1, h.2⟩
      · rintro (h | ⟨hmem, hbt⟩)
        · exact Or.inl h
        · rcases List.mem_cons.mp hmem with h | h
          · subst h
            exact absurd hbt.symm hg
          · exact Or.inr ⟨h, hbt⟩

/-! ## Multiset of all predicates stored in the map -/

/-- All predicates stored across all sub-requests of the map, in entry
order. -/
def allPreds (m : SchemaMap) : List String :=
  (m.map (fun e => e.2.predicates)).flatten

theorem addPredicate_cons (k : Nat) (v : SchemaRequest) (m : SchemaMap)
    (f : List String) (gid : Nat) (a : String) (hk : k ≠ gid) :
    addPredicate ((k, v) :: m) f gid a = (k, v) :: addPredicate m f gid a := by
  unfold addPredicate
  simp only [mapGet, if_neg hk]
  cases mapGet m gid <;> simp [mapSet, hk]

theorem allPreds_addPredicate (m : SchemaMap) (f : List String) (gid : Nat)
    (a : String) :
    (allPreds (addPredicate m f gid a) : Multiset String) =
      a ::ₘ (allPreds m : Multiset String) := by
  induction m with
  | nil => simp [addPredicate, mapGet, mapSet, allPreds]
  | cons kv rest ih =>
    obtain ⟨k, v⟩ := kv
    by_cases hk : k = gid
    · subst hk
      simp only [addPredicate, mapGet, mapSet, eq_self_iff_true, ite_true,
        allPreds, List.map_cons, List.flatten_cons]
      rw [Multiset.cons_coe, Multiset.coe_eq_coe]
      simp only [List.append_assoc, List.singleton_append]
      exact List.perm_middle
    · rw [addPredicate_cons _ _ _ _ _ _ hk]
      simp only [allPreds, List.map_cons, List.flatten_cons] at ih ⊢
      rw [← Multiset.coe_add, ← Multiset.coe_add, ih, Multiset.add_cons]

theorem allPreds_foldl_addPredicate (gr : Groups) (f : List String)
    (preds : List String) (m : SchemaMap) :
    (allPreds (preds.foldl
        (fun acc attr => addPredicate acc f (gr.belongsTo attr) attr) m) :
      Multiset String) =
      (allPreds m : Multiset String) + (preds : Multiset String) := by
  induction preds generalizing m with
  | nil => simp
  | cons p ps ih =>
    rw [List.foldl_cons, ih, allPreds_addPredicate]
    simp [Multiset.cons_swap]
    exact List.perm_middle.symm

theorem allPreds_addKnownGroup (m : SchemaMap) (f : List String) (gid : Nat) :
    allPreds (addKnownGroup m f gid) = allPreds m := by
  unfold addKnownGroup
  by_cases h0 : gid = 0
  · simp [h0]
  · rw [if_neg h0]
    cases hm : mapGet m gid with
    | none =>
      rw [mapSet_of_absent _ _ _ hm]
      simp [allPreds]
    | some s => rfl

theorem allPreds_foldl_addKnownGroup (f : List String) (gids : List Nat)
    (m : SchemaMap) :
    allPreds (gids.foldl (fun acc gid => addKnownGroup acc f gid) m) =
      allPreds m := by
  induction gids generalizing m with
  | nil => rfl
  | cons g gs ih => rw [List.foldl_cons, ih, allPreds_addKnownGroup]

/-! ## The known-groups loop -/

theorem mapGet_addKnownGroup (m : SchemaMap) (f : List String) (gid g : Nat) :
    mapGet (addKnownGroup m f gid) g =
      if g = gid ∧ gid ≠ 0 ∧ mapGet m gid = none
      then some { groupId := gid, predicates := [], fields := f }
      else mapGet m g := by
  unfold addKnownGroup
  by_cases h0 : gid = 0
  · simp [h0]
  · rw [if_neg h0]
    cases hm : mapGet m gid with
    | none =>
      rw [mapGet_mapSet]
      by_cases hg : g = gid
      · subst hg
        simp [h0, hm]
      · have : ¬ gid = g := fun h => hg h.symm
        simp [hg, this]
    | some s =>
      simp [hm]

theorem mapGet_foldl_addKnownGroup (f : List String) (gids : List Nat)
    (m : SchemaMap) (g : Nat) :
    mapGet (gids.foldl (fun acc gid => addKnownGroup acc f gid) m) g =
      if g ∈ gids ∧ g ≠ 0 ∧ mapGet m g = none
      then some { groupId := g, predicates := [], fields := f }
      else mapGet m g := by
  induction gids generalizing m with
  | nil => simp
  | cons gid gs ih =>
    rw [List.foldl_cons, ih, mapGet_addKnownGroup]
    by_cases hg : g = gid
    · subst hg
      by_cases h0 : g = 0
      · simp [h0]
      · cases hm : mapGet m g with
        | none => simp [h0, hm]
        | some s => simp [h0, hm]
    · have hgg : ¬ (g = gid ∧ gid ≠ 0 ∧ mapGet m gid = none) := fun h => hg h.1
      rw [if_neg hgg]
      by_cases hmem : g ∈ gs
      · simp [hmem, hg]
      · simp [hmem, hg]

theorem nodupKeys_addKnownGroup (m : SchemaMap) (f : List String) (gid : Nat)
    (h : (m.map Prod.fst).Nodup) :
    ((addKnownGroup m f gid).map Prod.fst).Nodup := by
  unfold addKnownGroup
  by_cases h0 : gid = 0
  · simpa [h0] using h
  · rw [if_neg h0]
    cases hm : mapGet m gid with
    | none =>
      rw [mapSet_of_absent _ _ _ hm]
      have hnot : gid ∉ m.map Prod.fst := (mapGet_none_iff m gid).mp hm
      simp [List.nodup_append, h, hnot]
    | some s => exact h

theorem nodupKeys_foldl_addKnownGroup (f : List String) (gids : List Nat)
    (m : SchemaMap) (h : (m.map Prod.fst).Nodup) :
    (((gids.foldl (fun acc gid => addKnownGroup acc f gid) m)).map
      Prod.fst).Nodup := by
  induction gids generalizing m with
  | nil => exact h
  | cons gid gs ih => exact ih _ (nodupKeys_addKnownGroup _ _ _ h)

/-! ## The dispatch loop -/

theorem dispatchPhase_hitZero_iff (entries : List (Nat × SchemaRequest)) :
    (dispatchPhase entries).2 = true ↔ ∃ s, (0, s) ∈ entries := by
  induction entries with
  | nil => simp [dispatchPhase]
  | cons e rest ih =>
    obtain ⟨gid, s⟩ := e
    by_cases h0 : gid = 0
    · subst h0
      simp [dispatchPhase]
    · simp only [dispatchPhase, if_neg h0, ih]
      constructor
      · rintro ⟨t, ht⟩
        exact ⟨t, List.mem_cons_of_mem _ ht⟩
      · rintro ⟨t, ht⟩
        rcases List.mem_cons.mp ht with h | h
        · exact absurd (congrArg Prod.fst h.symm) h0
        · exact ⟨t, h⟩

theorem dispatchPhase_no_zero (entries : List (Nat × SchemaRequest))
    (s : SchemaRequest) : (0, s) ∉ (dispatchPhase entries).1 := by
  induction entries with
  | nil => simp [dispatchPhase]
  | cons e rest ih =>
    obtain ⟨gid, t⟩ := e
    by_cases h0 : gid = 0
    · subst h0
      simp [dispatchPhase]
    · simp only [dispatchPhase, if_neg h0]
      intro hmem
      rcases List.mem_cons.mp hmem with h | h
      · exact h0 (congrArg Prod.fst h.symm)
      · exact ih h

/-! ## The aggregation loop -/

theorem aggregate_err_nil (n : Nat) (events : List AggEvent)
    (acc nodes : List SchemaNode) (e : GoError)
    (h : aggregate n events acc = some (nodes, some e)) : nodes = [] := by
  induction n generalizing events acc with
  | zero => simp [aggregate] at h
  | succ n ih =>
    cases events with
    | nil => simp [aggregate] at h
    | cons ev rest =>
      cases ev with
      | res r =>
        cases hr : r.err with
        | none =>
          rw [aggregate, hr] at h
          exact ih _ _ h
        | some e' =>
          rw [aggregate, hr] at h
          simp at h
          exact h.1
      | ctxDone e' =>
        rw [aggregate] at h
        simp at h
        exact h.1

/-! ## The local projector -/

theorem applyField_predicate (st : SchemaState) (attr typ : String)
    (node : SchemaNode) (field : String) :
    (applyField st attr typ node field).predicate = node.predicate := by
  unfold applyField
  split_ifs <;> rfl

theorem foldl_applyField_predicate (st : SchemaState) (attr typ : String)
    (fields : List String) (node : SchemaNode) :
    (fields.foldl (applyField st attr typ) node).predicate = node.predicate := by
  induction fields generalizing node with
  | nil => rfl
  | cons f fs ih => rw [List.foldl_cons, ih, applyField_predicate]

theorem applyField_tokenizer (st : SchemaState) (attr typ : String)
    (node : SchemaNode) (field : String) (h : st.isIndexed attr = false) :
    (applyField st attr typ node field).tokenizer = node.tokenizer := by
  unfold applyField
  split_ifs with h1 h2 h3 h4 <;> simp_all

theorem foldl_applyField_tokenizer (st : SchemaState) (attr typ : String)
    (fields : List String) (node : SchemaNode) (h : st.isIndexed attr = false) :
    (fields.foldl (applyField st attr typ) node).tokenizer = node.tokenizer := by
  induction fields generalizing node with
  | nil => rfl
  | cons f fs ih => rw [List.foldl_cons, ih, applyField_tokenizer _ _ _ _ _ h]

theorem populateSchema_predicate (st : SchemaState) (attr : String)
    (fields : List String) (node : SchemaNode)
    (h : populateSchema st attr fields = some node) : node.predicate = attr := by
  unfold populateSchema at h
  cases ht : st.typeOf attr with
  | none => rw [ht] at h; exact absurd h (by simp)
  | some typ =>
    rw [ht] at h
    simp at h
    rw [← h, foldl_applyField_predicate]

theorem populateSchema_isSome (st : SchemaState) (attr : String)
    (fields : List String) (h : (st.typeOf attr).isSome) :
    (populateSchema st attr fields).isSome := by
  unfold populateSchema
  cases ht : st.typeOf attr with
  | none => rw [ht] at h; simp at h
  | some typ => simp

/-! ## Claim theorems -/

/-- Claim C5: for every predicate set, projecting with an empty field set
returns the same result as projecting with the explicit field list
`["type", "index", "tokenizer", "reverse", "count", "list", "upsert",
"lang"]` in that order. -/
theorem default_fields_projection (st : SchemaState) (gr : Groups)
    (req : SchemaRequest) (h : req.fields = []) :
    getSchema st gr req = getSchema st gr { req with fields := defaultFields } := by
  unfold getSchema
  rw [h]
  simp [defaultFields]

/-- Witness for C5 at a concrete request. -/
theorem default_fields_projection_witness :
    getSchema exState exGroups { predicates := ["p"], fields := [] } =
      getSchema exState exGroups { predicates := ["p"], fields := defaultFields } :=
  default_fields_projection exState exGroups { predicates := ["p"], fields := [] } rfl

/-- Claim C6: for every predicate and every field set containing
`"tokenizer"`, the node produced by `populateSchema` has a non-empty
`Tokenizer` list only if the catalog reports the predicate as indexed; for an
unindexed predicate the `Tokenizer` field is left empty even when requested. -/
theorem tokenizer_only_when_indexed (st : SchemaState) (attr : String)
    (fields : List String) (node : SchemaNode)
    (_hmem : "tokenizer" ∈ fields)
    (h : populateSchema st attr fields = some node) :
    (node.tokenizer ≠ [] → st.isIndexed attr = true)
    ∧ (st.isIndexed attr = false → node.tokenizer = []) := by
  have hfalse : st.isIndexed attr = false → node.tokenizer = [] := by
    intro hidx
    unfold populateSchema at h
    cases ht : st.typeOf attr with
    | none => rw [ht] at h; simp at h
    | some typ =>
      rw [ht] at h
      simp at h
      rw [← h, foldl_applyField_tokenizer _ _ _ _ _ hidx]
  refine ⟨?_, hfalse⟩
  intro hne
  cases hidx : st.isIndexed attr with
  | true => rfl
  | false => exact absurd (hfalse hidx) hne

/-- Witness for C6: predicate "r" is defined but unindexed, so requesting
"tokenizer" leaves the field empty. -/
theorem tokenizer_only_when_indexed_witness :
    (({ predicate := "r" } : SchemaNode).tokenizer ≠ [] →
      exState.isIndexed "r" = true)
    ∧ (exState.isIndexed "r" = false →
      ({ predicate := "r" } : SchemaNode).tokenizer = []) :=
  tokenizer_only_when_indexed exState "r" ["tokenizer"] { predicate := "r" }
    (by decide) (by decide)

/-- Claim C7: a predicate whose type the catalog does not define is omitted
entirely from the projected result (it never appears as a node), and the
projector returns no error in this case. -/
theorem undefined_schema_omitted (st : SchemaState) (gr : Groups)
    (req : SchemaRequest) (attr : String) (h : st.typeOf attr = none) :
    (∀ fields, populateSchema st attr fields = none)
    ∧ (∀ node ∈ (getSchema st gr req).1.schema, node.predicate ≠ attr)
    ∧ (getSchema st gr req).2 = none := by
  refine ⟨fun fields => by simp [populateSchema, h], ?_, rfl⟩
  intro node hmem heq
  unfold getSchema at hmem
  simp only [List.mem_filterMap, List.mem_filter] at hmem
  obtain ⟨a, _, hpop⟩ := hmem
  have hpa : node.predicate = a := populateSchema_predicate _ _ _ _ hpop
  have haa : a = attr := by rw [← hpa, heq]
  subst haa
  rw [show populateSchema st a _ = none from by simp [populateSchema, h]] at hpop
  exact absurd hpop (by simp)

/-- Witness for C7: predicate "q" has no defined type. -/
theorem undefined_schema_omitted_witness :
    populateSchema exState "q" ["type"] = none
    ∧ (getSchema exState exGroups
        { predicates := ["p", "q"], fields := [] }).2 = none :=
  ⟨(undefined_schema_omitted exState exGroups
      { predicates := ["p", "q"], fields := [] } "q" (by decide)).1 ["type"],
   (undefined_schema_omitted exState exGroups
      { predicates := ["p", "q"], fields := [] } "q" (by decide)).2.2⟩

/-- Claim C9: every node returned by `populateSchema` carries the queried
predicate name, for every field set; and a defined predicate always yields a
node, even for field sets of only unrecognized names. -/
theorem node_predicate_eq_attr (st : SchemaState) (attr : String)
    (fields : List String) :
    (∀ node, populateSchema st attr fields = some node → node.predicate = attr)
    ∧ ((st.typeOf attr).isSome → (populateSchema st attr fields).isSome) :=
  ⟨fun node h => populateSchema_predicate st attr fields node h,
   populateSchema_isSome st attr fields⟩

/-- Witness for C9: an unrecognized-only field set still yields a node named
after the queried predicate. -/
theorem node_predicate_eq_attr_witness :
    ({ predicate := "p" } : SchemaNode).predicate = "p"
    ∧ (populateSchema exState "p" ["bogus"]).isSome :=
  ⟨(node_predicate_eq_attr exState "p" ["bogus"]).1 { predicate := "p" }
      (by decide),
   (node_predicate_eq_attr exState "p" ["bogus"]).2 (by decide)⟩

/-- Claim C8: the Remote Entry Point returns the inbound context's error with
an empty result when the context is done; a "wrong server for this group"
error with an empty result when this node does not serve the addressed group;
and otherwise exactly the Local Projector's result. -/
theorem remote_entry_point_cases (ctxErr : Option GoError) (st : SchemaState)
    (gr : Groups) (s : SchemaRequest) :
    (∀ e, ctxErr = some e →
      grpcWorker.Schema ctxErr st gr s = (emptySchemaResult, some e))
    ∧ (ctxErr = none → gr.servesGroup s.groupId = false →
      grpcWorker.Schema ctxErr st gr s =
        (emptySchemaResult, some (GoError.wrongGroup s.groupId)))
    ∧ (ctxErr = none → gr.servesGroup s.groupId = true →
      grpcWorker.Schema ctxErr st gr s = getSchema st gr s) := by
  refine ⟨?_, ?_, ?_⟩
  · rintro e rfl
    rfl
  · rintro rfl hserve
    simp [grpcWorker.Schema, hserve]
  · rintro rfl hserve
    simp [grpcWorker.Schema, hserve]

/-- Witness for C8: all three cases at concrete inputs (group 1 is served
locally, group 2 is not). -/
theorem remote_entry_point_cases_witness :
    grpcWorker.Schema (some GoError.ctxCanceled) exState exGroups
        { groupId := 1 } = (emptySchemaResult, some GoError.ctxCanceled)
    ∧ grpcWorker.Schema none exState exGroups { groupId := 2 } =
        (emptySchemaResult, some (GoError.wrongGroup 2))
    ∧ grpcWorker.Schema none exState exGroups { groupId := 1 } =
        getSchema exState exGroups { groupId := 1 } :=
  ⟨(remote_entry_point_cases (some GoError.ctxCanceled) exState exGroups
      { groupId := 1 }).1 GoError.ctxCanceled rfl,
   (remote_entry_point_cases none exState exGroups { groupId := 2 }).2.1 rfl
      (by decide),
   (remote_entry_point_cases none exState exGroups { groupId := 1 }).2.2 rfl
      (by decide)⟩

/-- Claim C3: for a non-empty predicate set, `addToSchemaMap` assigns each
named predicate to exactly one group — the one `BelongsTo` reports — the union
of predicates over all sub-requests equals the original predicate set, and
each sub-request carries the original field set (and its own group id). -/
theorem partition_assigns_each_predicate (gr : Groups) (req : SchemaRequest)
    (hne : req.predicates ≠ []) :
    (∀ a g, a ∈ predsOf (addToSchemaMap [] gr req) g ↔
        a ∈ req.predicates ∧ g = gr.belongsTo a)
    ∧ (∀ g s, mapGet (addToSchemaMap [] gr req) g = some s →
        s.fields = req.fields ∧ s.groupId = g) := by
  have hlen : 0 < req.predicates.length := List.length_pos.mpr hne
  have hmap : addToSchemaMap [] gr req = req.predicates.foldl
      (fun acc attr => addPredicate acc req.fields (gr.belongsTo attr) attr)
      [] := by
    unfold addToSchemaMap
    simp [hlen]
  rw [hmap]
  constructor
  · intro a g
    rw [mem_predsOf_foldl]
    simp [predsOf, mapGet]
  · exact fun g s hs => wellFormed_foldl_addPredicate gr req.fields
      req.predicates [] (fun g s h => by simp [mapGet] at h) g s hs

/-- Witness for C3 at a concrete request with two predicates. -/
theorem partition_assigns_each_predicate_witness :
    "a" ∈ predsOf (addToSchemaMap [] exGroups exReq) 1 ↔
      "a" ∈ exReq.predicates ∧ 1 = exGroups.belongsTo "a" :=
  (partition_assigns_each_predicate exGroups exReq (by decide)).1 "a" 1

/-- Claim C4: for an empty predicate set, `addToSchemaMap` produces exactly
one entry per group id known to the oracle excluding 0, each with that
group id, an empty predicate list and the original field set. -/
theorem partition_empty_predicates (gr : Groups) (req : SchemaRequest)
    (h : req.predicates = []) :
    (∀ g, mapGet (addToSchemaMap [] gr req) g =
        if g ∈ gr.knownGroups ∧ g ≠ 0
        then some { groupId := g, predicates := [], fields := req.fields }
        else none)
    ∧ ((addToSchemaMap [] gr req).map Prod.fst).Nodup
    ∧ (∀ g, g ∈ (addToSchemaMap [] gr req).map Prod.fst ↔
        g ∈ gr.knownGroups ∧ g ≠ 0) := by
  have hmap : addToSchemaMap [] gr req = gr.knownGroups.foldl
      (fun acc gid => addKnownGroup acc req.fields gid) [] := by
    unfold addToSchemaMap
    rw [h]
    simp
  rw [hmap]
  have hget : ∀ g, mapGet (gr.knownGroups.foldl
      (fun acc gid => addKnownGroup acc req.fields gid) []) g =
      if g ∈ gr.knownGroups ∧ g ≠ 0
      then some { groupId := g, predicates := [], fields := req.fields }
      else none := by
    intro g
    rw [mapGet_foldl_addKnownGroup]
    simp [mapGet]
  refine ⟨hget, nodupKeys_foldl_addKnownGroup _ _ _ (by simp), fun g => ?_⟩
  constructor
  · intro hk
    by_contra hc
    have hn : mapGet (gr.knownGroups.foldl
        (fun acc gid => addKnownGroup acc req.fields gid) []) g = none := by
      rw [hget g, if_neg hc]
    exact (mapGet_none_iff _ g).mp hn hk
  · intro hc
    by_contra hk
    have hn := (mapGet_none_iff (gr.knownGroups.foldl
      (fun acc gid => addKnownGroup acc req.fields gid) []) g).mpr hk
    rw [hget g, if_pos hc] at hn
    exact absurd hn (by simp)

/-- Witness for C4 at a concrete empty-predicate request: known group 2 gets
an entry. -/
theorem partition_empty_predicates_witness :
    mapGet (addToSchemaMap [] exGroups
        { predicates := [], fields := ["type"] }) 2 =
      if 2 ∈ exGroups.knownGroups ∧ 2 ≠ 0
      then some { groupId := 2, predicates := [], fields := ["type"] }
      else none :=
  (partition_empty_predicates exGroups
    { predicates := [], fields := ["type"] } rfl).1 2

/-- Claim C10: `addToSchemaMap` does not deduplicate: the multiset of
predicates across all sub-requests equals the input predicate list as a
multiset, for every request. -/
theorem partition_multiset_preserved (gr : Groups) (req : SchemaRequest) :
    (allPreds (addToSchemaMap [] gr req) : Multiset String) =
      (req.predicates : Multiset String) := by
  by_cases hlen : 0 < req.predicates.length
  · have hmap : addToSchemaMap [] gr req = req.predicates.foldl
        (fun acc attr => addPredicate acc req.fields (gr.belongsTo attr) attr)
        [] := by
      unfold addToSchemaMap
      simp [hlen]
    rw [hmap, allPreds_foldl_addPredicate]
    simp [allPreds]
  · have h0 : req.predicates = [] :=
      List.length_eq_zero.mp (Nat.eq_zero_of_not_pos hlen)
    have hmap : addToSchemaMap [] gr req = gr.knownGroups.foldl
        (fun acc gid => addKnownGroup acc req.fields gid) [] := by
      unfold addToSchemaMap
      rw [h0]
      simp
    rw [hmap, allPreds_foldl_addKnownGroup]
    simp [allPreds, h0]

/-- Claim C2: every outcome of `GetSchemaOverNetwork` is either an error with
an empty node list or a node list with no error — never a non-empty partial
result together with an error.  Quantified over every health-check outcome,
every enumeration order of the schema map and every arrival order of task
results and cancellation. -/
theorem no_partial_results (health : Option GoError)
    (entries : List (Nat × SchemaRequest)) (events : List AggEvent)
    (o : NetOutcome)
    (h : GetSchemaOverNetwork health entries events = some o) :
    o.err = none ∨ o.nodes = [] := by
  unfold GetSchemaOverNetwork at h
  cases health with
  | some e =>
    simp at h
    rw [← h]
    exact Or.inr rfl
  | none =>
    by_cases hz : (dispatchPhase entries).2
    · rw [if_pos hz] at h
      simp at h
      rw [← h]
      exact Or.inr rfl
    · rw [if_neg hz] at h
      cases hagg : aggregate entries.length events [] with
      | none => rw [hagg] at h; exact absurd h (by simp)
      | some p =>
        obtain ⟨nodes, err⟩ := p
        rw [hagg] at h
        simp at h
        rw [← h]
        cases err with
        | none => exact Or.inl rfl
        | some e => exact Or.inr (aggregate_err_nil _ _ _ _ _ hagg)

/-- Witness for C2 at the trivial empty request. -/
theorem no_partial_results_witness :
    ({ dispatched := [], nodes := [], err := none } : NetOutcome).err = none
    ∨ ({ dispatched := [], nodes := [], err := none } : NetOutcome).nodes
        = [] :=
  no_partial_results none [] []
    { dispatched := [], nodes := [], err := none } (by decide)

/-- Claim C1 (counterexample): a request whose partition map contains an
entry for group 0 alongside an entry for group 1 for which, under the map
enumeration that visits group 1 first (Go leaves the order unspecified), the
resolution does dispatch a lookup task before returning
`errUnservedTablet` — refuting "no per-group lookup is started". -/
theorem unrouted_no_dispatch_counterexample :
    (∃ s, (0, s) ∈ addToSchemaMap [] exGroups exReq)
    ∧ ∃ o, GetSchemaOverNetwork none (addToSchemaMap [] exGroups exReq) []
        = some o ∧ o.err = some errUnservedTablet ∧ o.dispatched ≠ [] := by
  refine ⟨⟨{ groupId := 0, predicates := ["b"], fields := [] }, by decide⟩,
    ⟨{ dispatched := [(1, { groupId := 1, predicates := ["a"], fields := [] })],
       nodes := [], err := some errUnservedTablet }, by decide, rfl, by decide⟩⟩

/-- Claim C1 (amended): whenever the partition map contains an entry for
group 0, `GetSchemaOverNetwork` returns `errUnservedTablet` with an empty node
list, consuming no task result; no lookup is dispatched for group 0 itself,
though lookups may have been dispatched for groups enumerated earlier. -/
theorem unrouted_returns_error (gr : Groups) (req : SchemaRequest)
    (entries : List (Nat × SchemaRequest)) (events : List AggEvent)
    (s0 : SchemaRequest)
    (hperm : entries.Perm (addToSchemaMap [] gr req))
    (hmem : (0, s0) ∈ addToSchemaMap [] gr req) :
    ∃ o, GetSchemaOverNetwork none entries events = some o
      ∧ o.err = some errUnservedTablet
      ∧ o.nodes = []
      ∧ ∀ s, (0, s) ∉ o.dispatched := by
  have hz : (dispatchPhase entries).2 = true :=
    (dispatchPhase_hitZero_iff entries).mpr ⟨s0, hperm.mem_iff.mpr hmem⟩
  refine ⟨{ dispatched := (dispatchPhase entries).1, nodes := [],
            err := some errUnservedTablet }, ?_, rfl, rfl,
    fun s => dispatchPhase_no_zero entries s⟩
  unfold GetSchemaOverNetwork
  simp [hz]

/-- Witness for the amended C1 at the concrete unrouted request. -/
theorem unrouted_returns_error_witness :
    ∃ o, GetSchemaOverNetwork none (addToSchemaMap [] exGroups exReq) []
        = some o
      ∧ o.err = some errUnservedTablet
      ∧ o.nodes = []
      ∧ ∀ s, (0, s) ∉ o.dispatched :=
  unrouted_returns_error exGroups exReq (addToSchemaMap [] exGroups exReq) []
    { groupId := 0, predicates := ["b"], fields := [] }
    (List.Perm.refl _) (by decide)

end DgraphSchema
